import Mathlib

/-!
Shallow embedding of `src/main.py`: a FastAPI + SQLAlchemy CRUD service over
two tables, `users` and `posts`.  The database is modelled as lists kept in
insertion order together with the autoincrement counters; every operation of
the service is a Lean function on this state.  Fallible operations return an
`Except HTTPException` together with the (possibly unchanged) database, since
an HTTPException raised before `db.add`/`db.commit` leaves the store as it was.
-/

namespace Lab9

/-- Row of the `users` table (main.py, class `User`). -/
structure User where
  id : Nat
  username : String
  email : String
  password : String
  deriving DecidableEq, Repr

/-- Row of the `posts` table (main.py, class `Post`); `user_id` is the
foreign key to `users.id` with `ondelete="CASCADE"`. -/
structure Post where
  id : Nat
  title : String
  content : String
  user_id : Nat
  deriving DecidableEq, Repr

/-- The persistent store: both tables in insertion order plus the
autoincrement counters (Postgres sequences start at 1). -/
structure DB where
  users : List User
  posts : List Post
  nextUserId : Nat
  nextPostId : Nat
  deriving DecidableEq, Repr

/-- The empty database right after `Base.metadata.create_all`. -/
def DB.empty : DB := ⟨[], [], 1, 1⟩

/-- `fastapi.HTTPException`: a status code and a detail string. -/
structure HTTPException where
  status_code : Nat
  detail : String
  deriving DecidableEq, Repr

/-- Pydantic `UserResponse`: id, username, email — no password field. -/
structure UserResponse where
  id : Nat
  username : String
  email : String
  deriving DecidableEq, Repr

/-- Pydantic `PostResponse`: id, title, content and the nested owner. -/
structure PostResponse where
  id : Nat
  title : String
  content : String
  user : UserResponse
  deriving DecidableEq, Repr

/-- Pydantic `UserCreate` request body. -/
structure UserCreate where
  username : String
  email : String
  password : String
  deriving DecidableEq, Repr

/-- Pydantic `PostCreate` request body. -/
structure PostCreate where
  title : String
  content : String
  user_id : Nat
  deriving DecidableEq, Repr

/-- Serialization of a `User` row through `UserResponse` (pydantic
`from_attributes`): the password column is simply not read. -/
def userResponse (u : User) : UserResponse :=
  ⟨u.id, u.username, u.email⟩

/-- Serialization of a `Post` row through `PostResponse`: the nested
`user` field is loaded through the relationship, i.e. the owner row with
matching `id`; `none` when no such row exists. -/
def postResponse (db : DB) (p : Post) : Option PostResponse :=
  (db.users.find? (fun u => u.id == p.user_id)).map
    (fun u => ⟨p.id, p.title, p.content, userResponse u⟩)

/-- Replace the first element satisfying `p` using `f` (an ORM `UPDATE` of
the row object returned by `.first()`). -/
def updateFirst (p : α → Bool) (f : α → α) : List α → List α
  | [] => []
  | x :: xs => if p x then f x :: xs else x :: updateFirst p f xs

/-- Delete the first element satisfying `p` (an ORM `DELETE` of the row
object returned by `.first()`). -/
def eraseFirst (p : α → Bool) : List α → List α
  | [] => []
  | x :: xs => if p x then xs else x :: eraseFirst p xs

/-- `create_user` (main.py lines 103–115): reject when any user already has
the same username or email, otherwise insert with the next id. -/
def create_user (db : DB) (user : UserCreate) :
    Except HTTPException UserResponse × DB :=
  match db.users.find?
      (fun u => u.username == user.username || u.email == user.email) with
  | some _ =>
      (.error ⟨400, "User with this username or email already exists"⟩, db)
  | none =>
      let row : User := ⟨db.nextUserId, user.username, user.email, user.password⟩
      (.ok (userResponse row),
       { db with users := db.users ++ [row], nextUserId := db.nextUserId + 1 })

/-- `get_users` (main.py lines 117–120): all users, serialized. -/
def get_users (db : DB) : List UserResponse :=
  db.users.map userResponse

/-- `get_user` (main.py lines 122–128): first user with the given id, 404
when absent. -/
def get_user (db : DB) (user_id : Nat) : Except HTTPException UserResponse :=
  match db.users.find? (fun u => u.id == user_id) with
  | none => .error ⟨404, "User not found"⟩
  | some u => .ok (userResponse u)

/-- `delete_user` (main.py lines 130–138): delete the user together with all
posts of the `posts` relationship (`cascade="all, delete"` /
`ondelete="CASCADE"`), i.e. every post whose `user_id` equals the user's id. -/
def delete_user (db : DB) (user_id : Nat) :
    Except HTTPException String × DB :=
  match db.users.find? (fun u => u.id == user_id) with
  | none => (.error ⟨404, "User not found"⟩, db)
  | some _ =>
      (.ok "User deleted",
       { db with
           users := eraseFirst (fun u => u.id == user_id) db.users,
           posts := db.posts.filter (fun p => p.user_id != user_id) })

/-- `change_user_email` (main.py lines 141–155): 404 when no user has the
id; 400 when ANY user (the filter does not exclude the target) already has
the new email; otherwise overwrite the email field. -/
def change_user_email (db : DB) (user_id : Nat) (email : String) :
    Except HTTPException UserResponse × DB :=
  match db.users.find? (fun u => u.id == user_id) with
  | none => (.error ⟨404, "User not found"⟩, db)
  | some u =>
      match db.users.find? (fun v => v.email == email) with
      | some _ => (.error ⟨400, "Email is already taken"⟩, db)
      | none =>
          (.ok (userResponse { u with email := email }),
           { db with
               users := updateFirst (fun v => v.id == user_id)
                 (fun v => { v with email := email }) db.users })

/-- `update_post_content` (main.py lines 158–168): 404 when no post has the
id; otherwise overwrite the content field and return the post with owner
loaded. -/
def update_post_content (db : DB) (post_id : Nat) (content : String) :
    Except HTTPException (Option PostResponse) × DB :=
  match db.posts.find? (fun p => p.id == post_id) with
  | none => (.error ⟨404, "Post not found"⟩, db)
  | some p =>
      let db' : DB :=
        { db with
            posts := updateFirst (fun q => q.id == post_id)
              (fun q => { q with content := content }) db.posts }
      (.ok (postResponse db' { p with content := content }), db')

/-- `create_post` (main.py lines 171–182): 404 when the referenced user does
not exist; otherwise insert with the next id and return the post with its
owner loaded. -/
def create_post (db : DB) (post : PostCreate) :
    Except HTTPException (Option PostResponse) × DB :=
  match db.users.find? (fun u => u.id == post.user_id) with
  | none => (.error ⟨404, "User not found"⟩, db)
  | some _ =>
      let row : Post := ⟨db.nextPostId, post.title, post.content, post.user_id⟩
      let db' : DB :=
        { db with posts := db.posts ++ [row], nextPostId := db.nextPostId + 1 }
      (.ok (postResponse db' row), db')

/-- `get_posts` (main.py lines 184–188): all posts, each serialized with its
owner loaded; `none` if some owner row is missing. -/
def get_posts (db : DB) : Option (List PostResponse) :=
  db.posts.mapM (postResponse db)

/-- `get_post` (main.py lines 190–196): first post with the given id, 404
when absent, serialized with its owner loaded. -/
def get_post (db : DB) (post_id : Nat) :
    Except HTTPException (Option PostResponse) :=
  match db.posts.find? (fun p => p.id == post_id) with
  | none => .error ⟨404, "Post not found"⟩
  | some p => .ok (postResponse db p)

/-- `delete_post` (main.py lines 198–206): delete the first post with the
given id, 404 when absent. -/
def delete_post (db : DB) (post_id : Nat) :
    Except HTTPException String × DB :=
  match db.posts.find? (fun p => p.id == post_id) with
  | none => (.error ⟨404, "Post not found"⟩, db)
  | some _ =>
      (.ok "Post deleted",
       { db with posts := eraseFirst (fun p => p.id == post_id) db.posts })

/-- Database states reachable from the empty store through the service's
mutating operations (the reads do not change state). -/
inductive Reachable : DB → Prop
  | init : Reachable DB.empty
  | createUser (db : DB) (u : UserCreate) (r : UserResponse) (db' : DB) :
      Reachable db → create_user db u = (.ok r, db') → Reachable db'
  | deleteUser (db : DB) (uid : Nat) (m : String) (db' : DB) :
      Reachable db → delete_user db uid = (.ok m, db') → Reachable db'
  | changeEmail (db : DB) (uid : Nat) (e : String) (r : UserResponse) (db' : DB) :
      Reachable db → change_user_email db uid e = (.ok r, db') → Reachable db'
  | createPost (db : DB) (p : PostCreate) (r : Option PostResponse) (db' : DB) :
      Reachable db → create_post db p = (.ok r, db') → Reachable db'
  | updatePost (db : DB) (pid : Nat) (c : String) (r : Option PostResponse) (db' : DB) :
      Reachable db → update_post_content db pid c = (.ok r, db') → Reachable db'
  | deletePost (db : DB) (pid : Nat) (m : String) (db' : DB) :
      Reachable db → delete_post db pid = (.ok m, db') → Reachable db'

/-- Structural well-formedness maintained by the service: every row id is
below the corresponding autoincrement counter (so freshly assigned ids are
distinct from all existing ones), and every post's foreign key references an
existing user. -/
def WF (db : DB) : Prop :=
  (∀ u ∈ db.users, u.id < db.nextUserId) ∧
  (∀ p ∈ db.posts, p.id < db.nextPostId) ∧
  (∀ p ∈ db.posts, ∃ u ∈ db.users, u.id = p.user_id)

/-- A user row with its password blanked: exactly the part of a user row
that any serialized output may depend on. -/
def scrubUser (u : User) : User := { u with password := "" }

/-- The database with every password blanked; two databases have the same
scrub precisely when they differ only in password values. -/
def scrub (db : DB) : DB := { db with users := db.users.map scrubUser }

/-- Concrete state: one user, no posts (result of one `create_user`). -/
def dbOneUser : DB := ⟨[⟨1, "alice", "a@x.com", "pw1"⟩], [], 2, 1⟩

/-- `dbOneUser` with a different password for its single user. -/
def dbOneUserAltPw : DB := ⟨[⟨1, "alice", "a@x.com", "pw9"⟩], [], 2, 1⟩

/-- Concrete state: one user owning one post. -/
def dbUserPost : DB :=
  ⟨[⟨1, "alice", "a@x.com", "pw1"⟩], [⟨1, "T", "C", 1⟩], 2, 2⟩

/-! ### List helper lemmas -/

theorem mem_of_mem_eraseFirst {p : α → Bool} {x : α} :
    ∀ {l : List α}, x ∈ eraseFirst p l → x ∈ l
  | a :: l, h => by
    by_cases hpa : p a
    · simp only [eraseFirst, if_pos hpa] at h
      exact List.mem_cons_of_mem _ h
    · simp only [eraseFirst, if_neg hpa] at h
      rcases List.mem_cons.mp h with h | h
      · exact h ▸ List.mem_cons_self _ _
      · exact List.mem_cons_of_mem _ (mem_of_mem_eraseFirst h)

theorem mem_eraseFirst_of_mem {p : α → Bool} {x : α} :
    ∀ {l : List α}, x ∈ l → ¬ p x = true → x ∈ eraseFirst p l
  | a :: l, h, hx => by
    by_cases hpa : p a
    · simp only [eraseFirst, if_pos hpa]
      rcases List.mem_cons.mp h with h | h
      · exact absurd (h ▸ hpa) hx
      · exact h
    · simp only [eraseFirst, if_neg hpa]
      rcases List.mem_cons.mp h with h | h
      · exact h ▸ List.mem_cons_self _ _
      · exact List.mem_cons_of_mem _ (mem_eraseFirst_of_mem h hx)

theorem mem_updateFirst {p : α → Bool} {f : α → α} {x : α} :
    ∀ {l : List α}, x ∈ updateFirst p f l →
      x ∈ l ∨ ∃ y ∈ l, p y = true ∧ x = f y
  | a :: l, h => by
    by_cases hpa : p a
    · simp only [updateFirst, if_pos hpa] at h
      rcases List.mem_cons.mp h with h | h
      · exact Or.inr ⟨a, List.mem_cons_self _ _, hpa, h⟩
      · exact Or.inl (List.mem_cons_of_mem _ h)
    · simp only [updateFirst, if_neg hpa] at h
      rcases List.mem_cons.mp h with h | h
      · exact Or.inl (h ▸ List.mem_cons_self _ _)
      · rcases mem_updateFirst h with h | ⟨y, hy, hpy, hxy⟩
        · exact Or.inl (List.mem_cons_of_mem _ h)
        · exact Or.inr ⟨y, List.mem_cons_of_mem _ hy, hpy, hxy⟩

theorem exists_mem_updateFirst {p : α → Bool} {f : α → α} {y : α} :
    ∀ {l : List α}, y ∈ l → ∃ x ∈ updateFirst p f l, x = y ∨ x = f y
  | a :: l, h => by
    by_cases hpa : p a
    · simp only [updateFirst, if_pos hpa]
      rcases List.mem_cons.mp h with h | h
      · exact ⟨f a, List.mem_cons_self _ _, Or.inr (by rw [h])⟩
      · exact ⟨y, List.mem_cons_of_mem _ h, Or.inl rfl⟩
    · simp only [updateFirst, if_neg hpa]
      rcases List.mem_cons.mp h with h | h
      · exact ⟨a, List.mem_cons_self _ _, Or.inl h.symm⟩
      · rcases exists_mem_updateFirst h with ⟨x, hx, hxy⟩
        exact ⟨x, List.mem_cons_of_mem _ hx, hxy⟩

theorem updateFirst_append_cons {p : α → Bool} {f : α → α} {x : α}
    (l₂ : List α) (hx : p x = true) :
    ∀ {l₁ : List α}, (∀ y ∈ l₁, ¬ p y = true) →
      updateFirst p f (l₁ ++ x :: l₂) = l₁ ++ f x :: l₂
  | [], _ => by simp [updateFirst, hx]
  | a :: l₁, h => by
    have ha : ¬ p a = true := h a (List.mem_cons_self _ _)
    simp only [List.cons_append, updateFirst, if_neg ha, List.cons.injEq, true_and]
    exact updateFirst_append_cons l₂ hx (fun y hy => h y (List.mem_cons_of_mem _ hy))

theorem eraseFirst_append_cons {p : α → Bool} {x : α}
    (l₂ : List α) (hx : p x = true) :
    ∀ {l₁ : List α}, (∀ y ∈ l₁, ¬ p y = true) →
      eraseFirst p (l₁ ++ x :: l₂) = l₁ ++ l₂
  | [], _ => by simp [eraseFirst, hx]
  | a :: l₁, h => by
    have ha : ¬ p a = true := h a (List.mem_cons_self _ _)
    simp only [List.cons_append, eraseFirst, if_neg ha, List.cons.injEq, true_and]
    exact eraseFirst_append_cons l₂ hx (fun y hy => h y (List.mem_cons_of_mem _ hy))

/-- `.first()` decomposition: a successful `find?` splits the list into an
unmatched prefix, the found element and a suffix. -/
theorem find?_decomp {p : α → Bool} {x : α} :
    ∀ {l : List α}, l.find? p = some x →
      ∃ l₁ l₂, l = l₁ ++ x :: l₂ ∧ ∀ y ∈ l₁, ¬ p y = true
  | a :: l, h => by
    by_cases hpa : p a
    · rw [List.find?_cons_of_pos _ hpa, Option.some.injEq] at h
      exact ⟨[], l, by rw [h, List.nil_append], by simp⟩
    · rw [List.find?_cons_of_neg _ hpa] at h
      rcases find?_decomp h with ⟨l₁, l₂, hl, hl₁⟩
      refine ⟨a :: l₁, l₂, by rw [hl, List.cons_append], ?_⟩
      intro y hy
      rcases List.mem_cons.mp hy with hy | hy
      · exact hy ▸ hpa
      · exact hl₁ y hy

/-! ### Well-formedness is preserved by every operation -/

theorem wf_empty : WF DB.empty := by
  refine ⟨?_, ?_, ?_⟩ <;> simp [DB.empty]

theorem wf_create_user (db : DB) (u : UserCreate) (h : WF db) :
    WF (create_user db u).2 := by
  obtain ⟨hu, hp, ho⟩ := h
  unfold create_user
  cases hfind : db.users.find?
      (fun v => v.username == u.username || v.email == u.email) with
  | some v => exact ⟨hu, hp, ho⟩
  | none =>
    refine ⟨?_, hp, ?_⟩
    · intro w hw
      rcases List.mem_append.mp hw with hw | hw
      · exact Nat.lt_succ_of_lt (hu w hw)
      · rw [List.mem_singleton] at hw
        rw [hw]
        exact Nat.lt_succ_self _
    · intro q hq
      rcases ho q hq with ⟨w, hw, hid⟩
      exact ⟨w, List.mem_append_left _ hw, hid⟩

theorem wf_delete_user (db : DB) (uid : Nat) (h : WF db) :
    WF (delete_user db uid).2 := by
  obtain ⟨hu, hp, ho⟩ := h
  unfold delete_user
  cases hfind : db.users.find? (fun v => v.id == uid) with
  | none => exact ⟨hu, hp, ho⟩
  | some v =>
    refine ⟨?_, ?_, ?_⟩
    · intro w hw
      exact hu w (mem_of_mem_eraseFirst hw)
    · intro q hq
      exact hp q (List.mem_of_mem_filter hq)
    · intro q hq
      have hne : q.user_id ≠ uid := by
        have := List.of_mem_filter hq
        simpa using this
      rcases ho q (List.mem_of_mem_filter hq) with ⟨w, hw, hid⟩
      refine ⟨w, mem_eraseFirst_of_mem hw ?_, hid⟩
      simp only [beq_iff_eq]
      rw [hid]
      exact hne

theorem wf_change_user_email (db : DB) (uid : Nat) (e : String) (h : WF db) :
    WF (change_user_email db uid e).2 := by
  obtain ⟨hu, hp, ho⟩ := h
  unfold change_user_email
  cases hfind : db.users.find? (fun v => v.id == uid) with
  | none => exact ⟨hu, hp, ho⟩
  | some v =>
    cases hfind2 : db.users.find? (fun w => w.email == e) with
    | some w => exact ⟨hu, hp, ho⟩
    | none =>
      refine ⟨?_, hp, ?_⟩
      · intro w hw
        rcases mem_updateFirst hw with hw | ⟨y, hy, _, hxy⟩
        · exact hu w hw
        · rw [hxy]
          exact hu y hy
      · intro q hq
        rcases ho q hq with ⟨w, hw, hid⟩
        rcases exists_mem_updateFirst (p := fun v => v.id == uid)
          (f := fun v => { v with email := e }) hw with ⟨x, hx, hxw⟩
        refine ⟨x, hx, ?_⟩
        rcases hxw with hxw | hxw <;> rw [hxw] <;> exact hid

theorem wf_update_post_content (db : DB) (pid : Nat) (c : String) (h : WF db) :
    WF (update_post_content db pid c).2 := by
  obtain ⟨hu, hp, ho⟩ := h
  unfold update_post_content
  cases hfind : db.posts.find? (fun q => q.id == pid) with
  | none => exact ⟨hu, hp, ho⟩
  | some q =>
    refine ⟨hu, ?_, ?_⟩
    · intro w hw
      rcases mem_updateFirst hw with hw | ⟨y, hy, _, hxy⟩
      · exact hp w hw
      · rw [hxy]
        exact hp y hy
    · intro w hw
      rcases mem_updateFirst hw with hw | ⟨y, hy, _, hxy⟩
      · exact ho w hw
      · rw [hxy]
        exact ho y hy

theorem wf_create_post (db : DB) (post : PostCreate) (h : WF db) :
    WF (create_post db post).2 := by
  obtain ⟨hu, hp, ho⟩ := h
  unfold create_post
  cases hfind : db.users.find? (fun v => v.id == post.user_id) with
  | none => exact ⟨hu, hp, ho⟩
  | some v =>
    have hvid : v.id = post.user_id := by
      have := List.find?_some hfind
      simpa using this
    have hvmem : v ∈ db.users := List.mem_of_find?_eq_some hfind
    refine ⟨hu, ?_, ?_⟩
    · intro q hq
      rcases List.mem_append.mp hq with hq | hq
      · exact Nat.lt_succ_of_lt (hp q hq)
      · rw [List.mem_singleton] at hq
        rw [hq]
        exact Nat.lt_succ_self _
    · intro q hq
      rcases List.mem_append.mp hq with hq | hq
      · exact ho q hq
      · rw [List.mem_singleton] at hq
        rw [hq]
        exact ⟨v, hvmem, hvid⟩

theorem wf_delete_post (db : DB) (pid : Nat) (h : WF db) :
    WF (delete_post db pid).2 := by
  obtain ⟨hu, hp, ho⟩ := h
  unfold delete_post
  cases hfind : db.posts.find? (fun q => q.id == pid) with
  | none => exact ⟨hu, hp, ho⟩
  | some q =>
    refine ⟨hu, ?_, ?_⟩
    · intro w hw
      exact hp w (mem_of_mem_eraseFirst hw)
    · intro w hw
      exact ho w (mem_of_mem_eraseFirst hw)

/-- Every state reachable through the service operations is well-formed. -/
theorem reachable_wf {db : DB} (h : Reachable db) : WF db := by
  induction h with
  | init => exact wf_empty
  | createUser db u r db' _ heq ih =>
      have hw := wf_create_user db u ih
      rw [heq] at hw
      exact hw
  | deleteUser db uid m db' _ heq ih =>
      have hw := wf_delete_user db uid ih
      rw [heq] at hw
      exact hw
  | changeEmail db uid e r db' _ heq ih =>
      have hw := wf_change_user_email db uid e ih
      rw [heq] at hw
      exact hw
  | createPost db p r db' _ heq ih =>
      have hw := wf_create_post db p ih
      rw [heq] at hw
      exact hw
  | updatePost db pid c r db' _ heq ih =>
      have hw := wf_update_post_content db pid c ih
      rw [heq] at hw
      exact hw
  | deletePost db pid m db' _ heq ih =>
      have hw := wf_delete_post db pid ih
      rw [heq] at hw
      exact hw

/-! ### Shared lemmas about the operations -/

theorem reachable_dbOneUser : Reachable dbOneUser :=
  Reachable.createUser DB.empty ⟨"alice", "a@x.com", "pw1"⟩
    ⟨1, "alice", "a@x.com"⟩ dbOneUser Reachable.init rfl

theorem reachable_dbUserPost : Reachable dbUserPost :=
  Reachable.createPost dbOneUser ⟨"T", "C", 1⟩
    (some ⟨1, "T", "C", ⟨1, "alice", "a@x.com"⟩⟩) dbUserPost
    reachable_dbOneUser rfl

/-- Inversion of a successful serialization of a post: the owner row exists
and the response copies the post's fields. -/
theorem postResponse_some {db : DB} {p : Post} {r : PostResponse}
    (h : postResponse db p = some r) :
    ∃ u ∈ db.users, u.id = p.user_id ∧
      r = ⟨p.id, p.title, p.content, userResponse u⟩ := by
  unfold postResponse at h
  cases hfind : db.users.find? (fun u => u.id == p.user_id) with
  | none => rw [hfind] at h; exact Option.noConfusion h
  | some u =>
    rw [hfind] at h
    simp only [Option.map_some', Option.some.injEq] at h
    have hid : u.id = p.user_id := by simpa using List.find?_some hfind
    exact ⟨u, List.mem_of_find?_eq_some hfind, hid, h.symm⟩

/-- Inversion of a successful `delete_user`: the user row is erased and all
posts with the matching foreign key are filtered out. -/
theorem delete_user_ok {db : DB} {uid : Nat} {m : String} {db' : DB}
    (h : delete_user db uid = (.ok m, db')) :
    db' = { db with
              users := eraseFirst (fun u => u.id == uid) db.users,
              posts := db.posts.filter (fun p => p.user_id != uid) } := by
  unfold delete_user at h
  cases hfind : db.users.find? (fun u => u.id == uid) with
  | none => rw [hfind] at h; simp at h
  | some v =>
    rw [hfind] at h
    simp only [Prod.mk.injEq] at h
    exact h.2.symm

/-- Every element of a successful `mapM` over `Option` is the image of some
element of the input list. -/
theorem mem_of_mapM_option {f : α → Option β} :
    ∀ {l : List α} {l' : List β}, l.mapM f = some l' →
      ∀ y ∈ l', ∃ x ∈ l, f x = some y
  | [], l', h => by
    simp only [List.mapM_nil, Option.pure_def, Option.some.injEq] at h
    subst h
    simp
  | a :: l, l', h => by
    rw [List.mapM_cons] at h
    cases hfa : f a with
    | none => rw [hfa] at h; simp at h
    | some b =>
      rw [hfa] at h
      cases hml : l.mapM f with
      | none => rw [hml] at h; simp at h
      | some bs =>
        rw [hml] at h
        simp at h
        subst h
        intro y hy
        rcases List.mem_cons.mp hy with hy | hy
        · exact ⟨a, List.mem_cons_self _ _, hy ▸ hfa⟩
        · rcases mem_of_mapM_option hml y hy with ⟨x, hx, hfx⟩
          exact ⟨x, List.mem_cons_of_mem _ hx, hfx⟩

/-- A `mapM` over `Option` whose function succeeds on every element succeeds
and relates input and output pointwise, in order. -/
theorem mapM_option_forall₂ {f : α → Option β} :
    ∀ {l : List α}, (∀ x ∈ l, (f x).isSome) →
      ∃ l', l.mapM f = some l' ∧
        List.Forall₂ (fun x y => f x = some y) l l'
  | [], _ => ⟨[], rfl, List.Forall₂.nil⟩
  | a :: l, h => by
    cases hfa : f a with
    | none =>
      have := h a (List.mem_cons_self _ _)
      rw [hfa] at this
      simp at this
    | some b =>
      rcases mapM_option_forall₂
          (fun x hx => h x (List.mem_cons_of_mem _ hx)) with ⟨l', hl', hrel⟩
      refine ⟨b :: l', ?_, List.Forall₂.cons hfa hrel⟩
      rw [List.mapM_cons, hfa, hl']
      rfl

/-- `mapM` over `Option` only depends on the function's values on the list. -/
theorem mapM_option_congr {f g : α → Option β} :
    ∀ {l : List α}, (∀ x ∈ l, f x = g x) → l.mapM f = l.mapM g
  | [], _ => rfl
  | a :: l, h => by
    rw [List.mapM_cons, List.mapM_cons, h a (List.mem_cons_self _ _),
      mapM_option_congr (fun x hx => h x (List.mem_cons_of_mem _ hx))]

/-- Serialization of a user ignores the password column. -/
theorem userResponse_scrubUser (u : User) :
    userResponse (scrubUser u) = userResponse u := rfl

/-- `get_users` is insensitive to password values. -/
theorem get_users_scrub (db : DB) : get_users (scrub db) = get_users db := by
  unfold get_users scrub
  simp only [List.map_map]
  rfl

/-- `get_user` is insensitive to password values. -/
theorem get_user_scrub (db : DB) (uid : Nat) :
    get_user (scrub db) uid = get_user db uid := by
  unfold get_user scrub
  simp only
  rw [List.find?_map _ _]
  cases hfind : db.users.find? (fun u => u.id == uid) with
  | none =>
      rw [show (fun u => u.id == uid) ∘ scrubUser
            = fun u => u.id == uid from rfl, hfind]
      rfl
  | some u =>
      rw [show (fun u => u.id == uid) ∘ scrubUser
            = fun u => u.id == uid from rfl, hfind]
      rfl

/-- Post serialization is insensitive to password values. -/
theorem postResponse_scrub (db : DB) (p : Post) :
    postResponse (scrub db) p = postResponse db p := by
  unfold postResponse scrub
  simp only
  rw [List.find?_map _ _]
  cases hfind : db.users.find? (fun u => u.id == p.user_id) with
  | none =>
      rw [show (fun u => u.id == p.user_id) ∘ scrubUser
            = fun u => u.id == p.user_id from rfl, hfind]
      rfl
  | some u =>
      rw [show (fun u => u.id == p.user_id) ∘ scrubUser
            = fun u => u.id == p.user_id from rfl, hfind]
      rfl

/-- `get_posts` is insensitive to password values. -/
theorem get_posts_scrub (db : DB) : get_posts (scrub db) = get_posts db := by
  unfold get_posts
  have hposts : (scrub db).posts = db.posts := rfl
  rw [hposts]
  exact mapM_option_congr (fun p _ => postResponse_scrub db p)

/-- `get_post` is insensitive to password values. -/
theorem get_post_scrub (db : DB) (pid : Nat) :
    get_post (scrub db) pid = get_post db pid := by
  unfold get_post
  have hposts : (scrub db).posts = db.posts := rfl
  rw [hposts]
  cases hfind : db.posts.find? (fun p => p.id == pid) with
  | none => rfl
  | some p => exact congrArg Except.ok (postResponse_scrub db p)

/-! ### Branch reduction lemmas for the operations -/

theorem create_user_ok_eq {db : DB} {u : UserCreate}
    (hfind : db.users.find?
      (fun v => v.username == u.username || v.email == u.email) = none) :
    create_user db u =
      (.ok ⟨db.nextUserId, u.username, u.email⟩,
       { db with
           users := db.users ++
             [⟨db.nextUserId, u.username, u.email, u.password⟩],
           nextUserId := db.nextUserId + 1 }) := by
  unfold create_user
  rw [hfind]
  rfl

theorem create_user_err_eq {db : DB} {u : UserCreate} {v : User}
    (hfind : db.users.find?
      (fun v => v.username == u.username || v.email == u.email) = some v) :
    create_user db u =
      (.error ⟨400, "User with this username or email already exists"⟩, db) := by
  unfold create_user
  rw [hfind]

theorem get_user_ok_eq {db : DB} {uid : Nat} {v : User}
    (hfind : db.users.find? (fun u => u.id == uid) = some v) :
    get_user db uid = .ok (userResponse v) := by
  unfold get_user
  rw [hfind]

theorem postResponse_of_find? {db : DB} {p : Post} {v : User}
    (hfind : db.users.find? (fun u => u.id == p.user_id) = some v) :
    postResponse db p = some ⟨p.id, p.title, p.content, userResponse v⟩ := by
  unfold postResponse
  rw [hfind]
  rfl

theorem create_post_ok_eq {db : DB} {post : PostCreate} {v : User}
    (hfind : db.users.find? (fun u => u.id == post.user_id) = some v) :
    create_post db post =
      (.ok (postResponse
        { db with
            posts := db.posts ++
              [⟨db.nextPostId, post.title, post.content, post.user_id⟩],
            nextPostId := db.nextPostId + 1 }
        ⟨db.nextPostId, post.title, post.content, post.user_id⟩),
       { db with
           posts := db.posts ++
             [⟨db.nextPostId, post.title, post.content, post.user_id⟩],
           nextPostId := db.nextPostId + 1 }) := by
  unfold create_post
  rw [hfind]

theorem create_post_err_eq {db : DB} {post : PostCreate}
    (hfind : db.users.find? (fun u => u.id == post.user_id) = none) :
    create_post db post = (.error ⟨404, "User not found"⟩, db) := by
  unfold create_post
  rw [hfind]

theorem get_post_ok_eq {db : DB} {pid : Nat} {p : Post}
    (hfind : db.posts.find? (fun q => q.id == pid) = some p) :
    get_post db pid = .ok (postResponse db p) := by
  unfold get_post
  rw [hfind]

theorem update_post_ok_eq {db : DB} {pid : Nat} {c : String} {p : Post}
    (hfind : db.posts.find? (fun q => q.id == pid) = some p) :
    update_post_content db pid c =
      (.ok (postResponse
        { db with
            posts := updateFirst (fun q => q.id == pid)
              (fun q => { q with content := c }) db.posts }
        { p with content := c }),
       { db with
           posts := updateFirst (fun q => q.id == pid)
             (fun q => { q with content := c }) db.posts }) := by
  unfold update_post_content
  rw [hfind]

theorem update_post_err_eq {db : DB} {pid : Nat} {c : String}
    (hfind : db.posts.find? (fun q => q.id == pid) = none) :
    update_post_content db pid c = (.error ⟨404, "Post not found"⟩, db) := by
  unfold update_post_content
  rw [hfind]

theorem change_user_email_ok_eq {db : DB} {uid : Nat} {e : String} {v : User}
    (hfind : db.users.find? (fun u => u.id == uid) = some v)
    (hfind2 : db.users.find? (fun u => u.email == e) = none) :
    change_user_email db uid e =
      (.ok (userResponse { v with email := e }),
       { db with
           users := updateFirst (fun u => u.id == uid)
             (fun u => { u with email := e }) db.users }) := by
  unfold change_user_email
  rw [hfind, hfind2]

theorem change_user_email_notfound_eq {db : DB} {uid : Nat} {e : String}
    (hfind : db.users.find? (fun u => u.id == uid) = none) :
    change_user_email db uid e = (.error ⟨404, "User not found"⟩, db) := by
  unfold change_user_email
  rw [hfind]

theorem change_user_email_conflict_eq {db : DB} {uid : Nat} {e : String}
    {v w : User} (hfind : db.users.find? (fun u => u.id == uid) = some v)
    (hfind2 : db.users.find? (fun u => u.email == e) = some w) :
    change_user_email db uid e = (.error ⟨400, "Email is already taken"⟩, db) := by
  unfold change_user_email
  rw [hfind, hfind2]

/-- A `find?` looking for a fresh key over rows whose keys are all below the
autoincrement counter finds nothing in the old rows and hence the appended
row. -/
theorem find?_key_append_singleton {key : α → Nat} {l : List α} {n : Nat}
    (hlt : ∀ x ∈ l, key x < n) {row : α} (hrow : key row = n) :
    (l ++ [row]).find? (fun x => key x == n) = some row := by
  rw [List.find?_append]
  have h1 : l.find? (fun x => key x == n) = none :=
    List.find?_eq_none.mpr (fun x hx => by
      simp only [beq_iff_eq]
      exact Nat.ne_of_lt (hlt x hx))
  rw [h1]
  have h2 : ([row].find? (fun x => key x == n)) = some row := by
    rw [List.find?_cons_of_pos _ (by simp [hrow])]
  rw [h2]
  rfl

/-! ### Claim theorems -/

/-- C1: No orphaned posts ever persist: in every reachable state every post's
owning-user reference points to an existing user, and after a successful
`delete_user uid` every post owned by `uid` is gone in the same operation, so
a subsequent `get_posts` lists zero posts whose owner was `uid`. -/
theorem no_orphaned_posts (db : DB) (h : Reachable db) :
    (∀ p ∈ db.posts, ∃ u ∈ db.users, u.id = p.user_id) ∧
    (∀ uid m db', delete_user db uid = (.ok m, db') →
      (∀ p ∈ db'.posts, p.user_id ≠ uid) ∧
      (∀ l, get_posts db' = some l → ∀ r ∈ l, r.user.id ≠ uid)) := by
  refine ⟨(reachable_wf h).2.2, ?_⟩
  intro uid m db' hdel
  have hdb' := delete_user_ok hdel
  subst hdb'
  constructor
  · intro p hp
    simpa using List.of_mem_filter hp
  · intro l hl r hr
    rcases mem_of_mapM_option hl r hr with ⟨p, hp, hpr⟩
    rcases postResponse_some hpr with ⟨u, _, huid, hreq⟩
    have hne : p.user_id ≠ uid := by simpa using List.of_mem_filter hp
    rw [hreq]
    show u.id ≠ uid
    rw [huid]
    exact hne

/-- Witness for C1 at the concrete reachable state with one user owning one
post. -/
theorem no_orphaned_posts_witness :
    (∀ p ∈ dbUserPost.posts, ∃ u ∈ dbUserPost.users, u.id = p.user_id) ∧
    (∀ uid m db', delete_user dbUserPost uid = (.ok m, db') →
      (∀ p ∈ db'.posts, p.user_id ≠ uid) ∧
      (∀ l, get_posts db' = some l → ∀ r ∈ l, r.user.id ≠ uid)) :=
  no_orphaned_posts dbUserPost reachable_dbUserPost

/-- C2 (code bug): the conflict check of `change_user_email` does not exclude
the target user.  In a store with a single user (id 1, email "a@x.com") no
*different* user holds that email and the user with id 1 exists, yet setting
user 1's email to its own current value returns 400 "Email is already taken"
instead of succeeding. -/
theorem change_user_email_self_conflict :
    change_user_email dbOneUser 1 "a@x.com" =
      (.error ⟨400, "Email is already taken"⟩, dbOneUser) ∧
    (∃ v ∈ dbOneUser.users, v.id = 1) ∧
    (∀ v ∈ dbOneUser.users, v.id ≠ 1 → v.email ≠ "a@x.com") :=
  ⟨rfl, by decide, by decide⟩

/-- C3: creating a user whose username is already taken (with a different
email) or whose email is already taken (with a different username) yields
400 Conflict and returns the store unchanged: no row is inserted. -/
theorem create_user_duplicate_conflict (db : DB) (u : UserCreate)
    (h : (∃ v ∈ db.users, v.username = u.username ∧ v.email ≠ u.email) ∨
         (∃ v ∈ db.users, v.email = u.email ∧ v.username ≠ u.username)) :
    create_user db u =
      (.error ⟨400, "User with this username or email already exists"⟩, db) := by
  cases hfind : db.users.find?
      (fun v => v.username == u.username || v.email == u.email) with
  | some v => exact create_user_err_eq hfind
  | none =>
    exfalso
    have hnone := List.find?_eq_none.mp hfind
    rcases h with ⟨v, hv, he, _⟩ | ⟨v, hv, he, _⟩
    · exact hnone v hv (by simp [he])
    · exact hnone v hv (by simp [he])

/-- Witness for C3: duplicate username with a different email. -/
theorem create_user_duplicate_conflict_witness :
    create_user dbOneUser ⟨"alice", "b@x.com", "pw2"⟩ =
      (.error ⟨400, "User with this username or email already exists"⟩,
       dbOneUser) :=
  create_user_duplicate_conflict dbOneUser ⟨"alice", "b@x.com", "pw2"⟩
    (Or.inl ⟨⟨1, "alice", "a@x.com", "pw1"⟩, by decide, by decide, by decide⟩)

/-- C5: `create_post` with a user id matching no user yields 404 and inserts
no row (the store is returned unchanged); with an existing user it succeeds
and returns the created post with its owner loaded. -/
theorem create_post_referential_check (db : DB) (post : PostCreate) :
    ((∀ v ∈ db.users, v.id ≠ post.user_id) →
      create_post db post = (.error ⟨404, "User not found"⟩, db)) ∧
    ((∃ v ∈ db.users, v.id = post.user_id) →
      ∃ r db', create_post db post = (.ok (some r), db') ∧
        r.id = db.nextPostId ∧ r.title = post.title ∧
        r.content = post.content ∧ r.user.id = post.user_id ∧
        db'.posts = db.posts ++
          [⟨db.nextPostId, post.title, post.content, post.user_id⟩]) := by
  constructor
  · intro hno
    cases hfind : db.users.find? (fun v => v.id == post.user_id) with
    | none => exact create_post_err_eq hfind
    | some v =>
      exfalso
      have hv : v.id = post.user_id := by simpa using List.find?_some hfind
      exact hno v (List.mem_of_find?_eq_some hfind) hv
  · intro hex
    cases hfind : db.users.find? (fun v => v.id == post.user_id) with
    | none =>
      exfalso
      rcases hex with ⟨v, hv, hid⟩
      exact List.find?_eq_none.mp hfind v hv (by simp [hid])
    | some v =>
      have hv : v.id = post.user_id := by simpa using List.find?_some hfind
      have heq := create_post_ok_eq hfind
      have hresp : postResponse
          { db with
              posts := db.posts ++
                [⟨db.nextPostId, post.title, post.content, post.user_id⟩],
              nextPostId := db.nextPostId + 1 }
          ⟨db.nextPostId, post.title, post.content, post.user_id⟩
          = some ⟨db.nextPostId, post.title, post.content, userResponse v⟩ :=
        postResponse_of_find? hfind
      rw [hresp] at heq
      exact ⟨⟨db.nextPostId, post.title, post.content, userResponse v⟩, _,
        heq, rfl, rfl, rfl, hv, rfl⟩

/-- Witness for C5: both branches at the concrete one-user store. -/
theorem create_post_referential_check_witness :
    (create_post dbOneUser ⟨"T", "C", 5⟩ =
      (.error ⟨404, "User not found"⟩, dbOneUser)) ∧
    (∃ r db', create_post dbOneUser ⟨"T", "C", 1⟩ = (.ok (some r), db') ∧
      r.id = dbOneUser.nextPostId ∧ r.title = "T" ∧
      r.content = "C" ∧ r.user.id = 1 ∧
      db'.posts = dbOneUser.posts ++ [⟨dbOneUser.nextPostId, "T", "C", 1⟩]) :=
  ⟨(create_post_referential_check dbOneUser ⟨"T", "C", 5⟩).1 (by decide),
   (create_post_referential_check dbOneUser ⟨"T", "C", 1⟩).2
     ⟨⟨1, "alice", "a@x.com", "pw1"⟩, by decide, by decide⟩⟩

/-- C10: `create_user` performs no non-emptiness validation: whenever the
username and email are not already present — even when username, email or
password is the empty string — the row is inserted and returned, with no
validation error. -/
theorem create_user_no_validation (db : DB) (u : UserCreate)
    (hfresh : ∀ v ∈ db.users, v.username ≠ u.username ∧ v.email ≠ u.email) :
    create_user db u =
      (.ok ⟨db.nextUserId, u.username, u.email⟩,
       { db with
           users := db.users ++
             [⟨db.nextUserId, u.username, u.email, u.password⟩],
           nextUserId := db.nextUserId + 1 }) := by
  apply create_user_ok_eq
  apply List.find?_eq_none.mpr
  intro v hv
  simp only [Bool.or_eq_true, beq_iff_eq, not_or]
  exact ⟨(hfresh v hv).1, (hfresh v hv).2⟩

/-- Witness for C10: all three fields empty still insert a row. -/
theorem create_user_no_validation_witness :
    create_user DB.empty ⟨"", "", ""⟩ =
      (.ok ⟨DB.empty.nextUserId, "", ""⟩,
       { DB.empty with
           users := DB.empty.users ++ [⟨DB.empty.nextUserId, "", "", ""⟩],
           nextUserId := DB.empty.nextUserId + 1 }) :=
  create_user_no_validation DB.empty ⟨"", "", ""⟩ (by decide)

/-- C4: for any non-empty (username, email, password) triple whose username
and email are not already present, `create_user` succeeds with the
system-assigned id and `get_user` on the returned id yields field-for-field
the same username and email; likewise any post created and then fetched by
its id returns identical title, content and owner, passwords excluded from
all outputs. -/
theorem create_then_get_roundtrip (db : DB) (h : Reachable db)
    (u : UserCreate) (hun : u.username ≠ "") (hem : u.email ≠ "")
    (hpw : u.password ≠ "")
    (hfresh : ∀ v ∈ db.users, v.username ≠ u.username ∧ v.email ≠ u.email) :
    (∃ r db', create_user db u = (.ok r, db') ∧ r.id = db.nextUserId ∧
      r.username = u.username ∧ r.email = u.email ∧
      get_user db' r.id = .ok r) ∧
    (∀ post : PostCreate, (∃ v ∈ db.users, v.id = post.user_id) →
      ∃ r db', create_post db post = (.ok (some r), db') ∧
        r.title = post.title ∧ r.content = post.content ∧
        r.user.id = post.user_id ∧ get_post db' r.id = .ok (some r)) := by
  constructor
  · have hfind : db.users.find?
        (fun v => v.username == u.username || v.email == u.email) = none := by
      apply List.find?_eq_none.mpr
      intro v hv
      simp only [Bool.or_eq_true, beq_iff_eq, not_or]
      exact hfresh v hv
    have heq := create_user_ok_eq hfind
    refine ⟨⟨db.nextUserId, u.username, u.email⟩, _, heq, rfl, rfl, rfl, ?_⟩
    have hget : (db.users ++
        [(⟨db.nextUserId, u.username, u.email, u.password⟩ : User)]).find?
          (fun v => v.id == db.nextUserId)
        = some ⟨db.nextUserId, u.username, u.email, u.password⟩ :=
      @find?_key_append_singleton User User.id _ _ (reachable_wf h).1 _ rfl
    exact @get_user_ok_eq
      { db with
         users := db.users ++
           [⟨db.nextUserId, u.username, u.email, u.password⟩],
         nextUserId := db.nextUserId + 1 } _ _ hget
  · intro post hex
    cases hfind : db.users.find? (fun v => v.id == post.user_id) with
    | none =>
      exfalso
      rcases hex with ⟨v, hv, hid⟩
      exact List.find?_eq_none.mp hfind v hv (by simp [hid])
    | some v =>
      have hv : v.id = post.user_id := by simpa using List.find?_some hfind
      have heq := create_post_ok_eq hfind
      have hresp : postResponse
          { db with
              posts := db.posts ++
                [⟨db.nextPostId, post.title, post.content, post.user_id⟩],
              nextPostId := db.nextPostId + 1 }
          ⟨db.nextPostId, post.title, post.content, post.user_id⟩
          = some ⟨db.nextPostId, post.title, post.content, userResponse v⟩ :=
        postResponse_of_find? hfind
      rw [hresp] at heq
      refine ⟨⟨db.nextPostId, post.title, post.content, userResponse v⟩, _,
        heq, rfl, rfl, hv, ?_⟩
      have hget : (db.posts ++
          [(⟨db.nextPostId, post.title, post.content, post.user_id⟩ : Post)]).find?
            (fun q => q.id == db.nextPostId)
          = some ⟨db.nextPostId, post.title, post.content, post.user_id⟩ :=
        @find?_key_append_singleton Post Post.id _ _ (reachable_wf h).2.1 _ rfl
      have hgp := @get_post_ok_eq
        { db with
           posts := db.posts ++
             [⟨db.nextPostId, post.title, post.content, post.user_id⟩],
           nextPostId := db.nextPostId + 1 } _ _ hget
      rw [hresp] at hgp
      exact hgp

/-- Witness for C4 at the concrete one-user store. -/
theorem create_then_get_roundtrip_witness :
    (∃ r db', create_user dbOneUser ⟨"bob", "b@x.com", "pw2"⟩ = (.ok r, db') ∧
      r.id = dbOneUser.nextUserId ∧ r.username = "bob" ∧ r.email = "b@x.com" ∧
      get_user db' r.id = .ok r) ∧
    (∀ post : PostCreate, (∃ v ∈ dbOneUser.users, v.id = post.user_id) →
      ∃ r db', create_post dbOneUser post = (.ok (some r), db') ∧
        r.title = post.title ∧ r.content = post.content ∧
        r.user.id = post.user_id ∧ get_post db' r.id = .ok (some r)) :=
  create_then_get_roundtrip dbOneUser reachable_dbOneUser
    ⟨"bob", "b@x.com", "pw2"⟩ (by decide) (by decide) (by decide) (by decide)

/-- C6: no output carries the password: a user response consists of exactly
id, username and email, and any two stores that agree after blanking all
passwords produce identical outputs under every read operation. -/
theorem password_never_leaks (db₁ db₂ : DB) (h : scrub db₁ = scrub db₂) :
    (∀ u : User, userResponse u = ⟨u.id, u.username, u.email⟩) ∧
    get_users db₁ = get_users db₂ ∧
    (∀ uid, get_user db₁ uid = get_user db₂ uid) ∧
    get_posts db₁ = get_posts db₂ ∧
    (∀ pid, get_post db₁ pid = get_post db₂ pid) := by
  refine ⟨fun u => rfl, ?_, ?_, ?_, ?_⟩
  · rw [← get_users_scrub db₁, h, get_users_scrub]
  · intro uid
    rw [← get_user_scrub db₁, h, get_user_scrub]
  · rw [← get_posts_scrub db₁, h, get_posts_scrub]
  · intro pid
    rw [← get_post_scrub db₁, h, get_post_scrub]

/-- Witness for C6: two stores differing only in the stored password. -/
theorem password_never_leaks_witness :
    (∀ u : User, userResponse u = ⟨u.id, u.username, u.email⟩) ∧
    get_users dbOneUser = get_users dbOneUserAltPw ∧
    (∀ uid, get_user dbOneUser uid = get_user dbOneUserAltPw uid) ∧
    get_posts dbOneUser = get_posts dbOneUserAltPw ∧
    (∀ pid, get_post dbOneUser pid = get_post dbOneUserAltPw pid) :=
  password_never_leaks dbOneUser dbOneUserAltPw rfl

/-- C7: `update_post_content` is idempotent under repetition with the same
value: for an existing post id, applying it a second time returns the same
response and the same final store as applying it once. -/
theorem update_post_content_idempotent (db : DB) (pid : Nat) (c : String)
    (h : ∃ p ∈ db.posts, p.id = pid) :
    update_post_content (update_post_content db pid c).2 pid c =
      update_post_content db pid c := by
  rcases h with ⟨p, hp, hpid⟩
  cases hfind : db.posts.find? (fun q => q.id == pid) with
  | none =>
    exfalso
    exact List.find?_eq_none.mp hfind p hp (by simp [hpid])
  | some q =>
    have hq : (fun (x : Post) => x.id == pid) q = true :=
      List.find?_some (p := fun (x : Post) => x.id == pid) hfind
    rcases find?_decomp hfind with ⟨l₁, l₂, hl, hl₁⟩
    have hupd : updateFirst (fun x => x.id == pid)
        (fun x => { x with content := c }) db.posts
        = l₁ ++ { q with content := c } :: l₂ := by
      rw [hl]
      exact updateFirst_append_cons (p := fun (x : Post) => x.id == pid) _ hq hl₁
    have hcons : (({ q with content := c } : Post) :: l₂).find?
        (fun x => x.id == pid) = some { q with content := c } :=
      List.find?_cons_of_pos _ (by exact hq)
    have hfind2 : (l₁ ++ { q with content := c } :: l₂).find?
        (fun x => x.id == pid) = some { q with content := c } := by
      rw [List.find?_append, List.find?_eq_none.mpr hl₁, hcons]
      rfl
    have hupd2 : updateFirst (fun x => x.id == pid)
        (fun x => { x with content := c })
        (l₁ ++ { q with content := c } :: l₂)
        = l₁ ++ { q with content := c } :: l₂ := by
      have hq' : (fun (x : Post) => x.id == pid) { q with content := c } = true := hq
      exact updateFirst_append_cons (p := fun (x : Post) => x.id == pid)
        l₂ hq' hl₁
    rw [update_post_ok_eq (c := c) hfind, hupd]
    show update_post_content
        { db with posts := l₁ ++ { q with content := c } :: l₂ } pid c = _
    rw [update_post_ok_eq (c := c) hfind2, hupd2]

/-- Witness for C7 at the concrete one-post store. -/
theorem update_post_content_idempotent_witness :
    update_post_content (update_post_content dbUserPost 1 "C2").2 1 "C2" =
      update_post_content dbUserPost 1 "C2" :=
  update_post_content_idempotent dbUserPost 1 "C2"
    ⟨⟨1, "T", "C", 1⟩, by decide, rfl⟩

/-- C8: `get_users` returns every stored user exactly once in insertion
order (it is exactly the stored list, serialized in order); in every
reachable state `get_posts` succeeds and relates one response to each stored
post, in insertion order, each with its owner loaded. -/
theorem list_operations_complete (db : DB) (h : Reachable db) :
    get_users db = db.users.map userResponse ∧
    ∃ l, get_posts db = some l ∧
      List.Forall₂ (fun (p : Post) (r : PostResponse) =>
        postResponse db p = some r ∧ r.id = p.id ∧ r.title = p.title ∧
        r.content = p.content ∧ r.user.id = p.user_id) db.posts l := by
  refine ⟨rfl, ?_⟩
  have howner := (reachable_wf h).2.2
  have hsome : ∀ p ∈ db.posts, (postResponse db p).isSome := by
    intro p hp
    rcases howner p hp with ⟨u, hu, huid⟩
    cases hfind : db.users.find? (fun v => v.id == p.user_id) with
    | none =>
      exact absurd (show (u.id == p.user_id) = true by simp [huid])
        (List.find?_eq_none.mp hfind u hu)
    | some v =>
      rw [postResponse_of_find? hfind]
      rfl
  rcases mapM_option_forall₂ hsome with ⟨l, hl, hrel⟩
  refine ⟨l, hl, ?_⟩
  refine List.Forall₂.imp ?_ hrel
  intro p r hpr
  rcases postResponse_some hpr with ⟨u, _, huid, hreq⟩
  subst hreq
  exact ⟨hpr, rfl, rfl, rfl, huid⟩

/-- Witness for C8 at the concrete one-post store. -/
theorem list_operations_complete_witness :
    get_users dbUserPost = dbUserPost.users.map userResponse ∧
    ∃ l, get_posts dbUserPost = some l ∧
      List.Forall₂ (fun (p : Post) (r : PostResponse) =>
        postResponse dbUserPost p = some r ∧ r.id = p.id ∧ r.title = p.title ∧
        r.content = p.content ∧ r.user.id = p.user_id) dbUserPost.posts l :=
  list_operations_complete dbUserPost reachable_dbUserPost

/-- C9: on success `change_user_email` rewrites only the email field of the
first user with the given id (its id, username, password, all other users,
all posts and both counters are unchanged), and `update_post_content`
rewrites only the content field of the first post with the given id (its id,
title, owner reference, all other posts, all users and both counters are
unchanged). -/
theorem success_frame (db : DB) :
    (∀ uid e r db', change_user_email db uid e = (.ok r, db') →
      db'.posts = db.posts ∧ db'.nextUserId = db.nextUserId ∧
      db'.nextPostId = db.nextPostId ∧
      ∃ l₁ u l₂, db.users = l₁ ++ u :: l₂ ∧ u.id = uid ∧
        db'.users = l₁ ++ { u with email := e } :: l₂) ∧
    (∀ pid c r db', update_post_content db pid c = (.ok r, db') →
      db'.users = db.users ∧ db'.nextUserId = db.nextUserId ∧
      db'.nextPostId = db.nextPostId ∧
      ∃ l₁ p l₂, db.posts = l₁ ++ p :: l₂ ∧ p.id = pid ∧
        db'.posts = l₁ ++ { p with content := c } :: l₂) := by
  constructor
  · intro uid e r db' hop
    cases hfind : db.users.find? (fun u => u.id == uid) with
    | none =>
      rw [change_user_email_notfound_eq hfind] at hop
      exact Except.noConfusion (congrArg Prod.fst hop)
    | some v =>
      cases hfind2 : db.users.find? (fun u => u.email == e) with
      | some w =>
        rw [change_user_email_conflict_eq hfind hfind2] at hop
        exact Except.noConfusion (congrArg Prod.fst hop)
      | none =>
        rw [change_user_email_ok_eq hfind hfind2] at hop
        have hdb' := congrArg Prod.snd hop
        simp only at hdb'
        subst hdb'
        refine ⟨rfl, rfl, rfl, ?_⟩
        have hv : (fun (x : User) => x.id == uid) v = true :=
          List.find?_some (p := fun (x : User) => x.id == uid) hfind
        rcases find?_decomp hfind with ⟨l₁, l₂, hl, hl₁⟩
        refine ⟨l₁, v, l₂, hl, by simpa using hv, ?_⟩
        show updateFirst (fun x => x.id == uid)
          (fun x => { x with email := e }) db.users = _
        rw [hl]
        exact updateFirst_append_cons (p := fun (x : User) => x.id == uid)
          l₂ hv hl₁
  · intro pid c r db' hop
    cases hfind : db.posts.find? (fun q => q.id == pid) with
    | none =>
      rw [update_post_err_eq hfind] at hop
      exact Except.noConfusion (congrArg Prod.fst hop)
    | some q =>
      rw [update_post_ok_eq (c := c) hfind] at hop
      have hdb' := congrArg Prod.snd hop
      simp only at hdb'
      subst hdb'
      refine ⟨rfl, rfl, rfl, ?_⟩
      have hq : (fun (x : Post) => x.id == pid) q = true :=
        List.find?_some (p := fun (x : Post) => x.id == pid) hfind
      rcases find?_decomp hfind with ⟨l₁, l₂, hl, hl₁⟩
      refine ⟨l₁, q, l₂, hl, by simpa using hq, ?_⟩
      show updateFirst (fun x => x.id == pid)
        (fun x => { x with content := c }) db.posts = _
      rw [hl]
      exact updateFirst_append_cons (p := fun (x : Post) => x.id == pid)
        l₂ hq hl₁

/-- Witness for C9: a concrete successful email change and content update. -/
theorem success_frame_witness :
    (((⟨[⟨1, "alice", "new@x.com", "pw1"⟩], [], 2, 1⟩ : DB).posts
        = dbOneUser.posts ∧
      (⟨[⟨1, "alice", "new@x.com", "pw1"⟩], [], 2, 1⟩ : DB).nextUserId
        = dbOneUser.nextUserId ∧
      (⟨[⟨1, "alice", "new@x.com", "pw1"⟩], [], 2, 1⟩ : DB).nextPostId
        = dbOneUser.nextPostId ∧
      ∃ l₁ u l₂, dbOneUser.users = l₁ ++ u :: l₂ ∧ u.id = 1 ∧
        (⟨[⟨1, "alice", "new@x.com", "pw1"⟩], [], 2, 1⟩ : DB).users
          = l₁ ++ { u with email := "new@x.com" } :: l₂) ∧
     ((⟨[⟨1, "alice", "a@x.com", "pw1"⟩], [⟨1, "T", "C2", 1⟩], 2, 2⟩ : DB).users
        = dbUserPost.users ∧
      (⟨[⟨1, "alice", "a@x.com", "pw1"⟩], [⟨1, "T", "C2", 1⟩], 2, 2⟩ : DB).nextUserId
        = dbUserPost.nextUserId ∧
      (⟨[⟨1, "alice", "a@x.com", "pw1"⟩], [⟨1, "T", "C2", 1⟩], 2, 2⟩ : DB).nextPostId
        = dbUserPost.nextPostId ∧
      ∃ l₁ p l₂, dbUserPost.posts = l₁ ++ p :: l₂ ∧ p.id = 1 ∧
        (⟨[⟨1, "alice", "a@x.com", "pw1"⟩], [⟨1, "T", "C2", 1⟩], 2, 2⟩ : DB).posts
          = l₁ ++ { p with content := "C2" } :: l₂)) :=
  ⟨(success_frame dbOneUser).1 1 "new@x.com" ⟨1, "alice", "new@x.com"⟩
      ⟨[⟨1, "alice", "new@x.com", "pw1"⟩], [], 2, 1⟩ rfl,
   (success_frame dbUserPost).2 1 "C2"
      (some ⟨1, "T", "C2", ⟨1, "alice", "a@x.com"⟩⟩)
      ⟨[⟨1, "alice", "a@x.com", "pw1"⟩], [⟨1, "T", "C2", 1⟩], 2, 2⟩ rfl⟩

end Lab9
